import Mathlib

set_option maxRecDepth 100000

/-!
Verification of the xar-js archive generator (src/lib.ts, src/io.ts and
friends) against its natural-language specification.

The TypeScript sources are shallowly embedded.  Byte buffers are `List Nat`
(each entry one byte), strings are Lean `String`s.  External primitives that
the library calls (Node's crypto SHA-1 and RSA signing, pako's deflate and
inflate, xml2js serialization, the system clock) are collected in an `Env`
record of abstract functions; everything the library itself computes is
embedded concretely.  JavaScript `assert` calls and thrown `Error`s become
`Except` errors.
-/

/-! ## Byte and string helpers -/

/-- Lowercase hexadecimal digit for a value below 16 (digit characters
followed by lowercase letters, as produced by Node's digest hex output). -/
def hexDigitChar (n : Nat) : Char :=
  if n < 10 then Char.ofNat (48 + n) else Char.ofNat (87 + n)

/-- Two lowercase hex characters for one byte. -/
def byteToHex (b : Nat) : List Char :=
  [hexDigitChar (b / 16 % 16), hexDigitChar (b % 16)]

/-- Lowercase hex string of a byte buffer, as in Node's digest hex form. -/
def bytesToHex (bs : List Nat) : String :=
  String.mk ((bs.map byteToHex).flatten)

/-- The shasum helper of lib.ts: SHA-1 of a buffer rendered as a lowercase
hex string.  The raw SHA-1 primitive is a parameter. -/
def shasum (sha1 : List Nat → List Nat) (data : List Nat) : String :=
  bytesToHex (sha1 data)

/-- Substring containment on character lists, modelling the JavaScript test
`line.indexOf(pat) !== -1`.  The empty pattern is contained everywhere. -/
def containsSub (s pat : List Char) : Bool :=
  match s with
  | [] => pat.isEmpty
  | _ :: t => pat.isPrefixOf s || containsSub t pat

/-- Substring containment on strings. -/
def strContains (s pat : String) : Bool :=
  containsSub s.data pat.data

/-- Split a character list at every newline, keeping empty pieces, as
JavaScript `split` does. -/
def splitLinesAux : List Char → List Char → List String
  | [], acc => [String.mk acc.reverse]
  | c :: cs, acc =>
      if c = '\n' then String.mk acc.reverse :: splitLinesAux cs []
      else splitLinesAux cs (c :: acc)

/-- JavaScript `s.split` at newline characters. -/
def splitLines (s : String) : List String :=
  splitLinesAux s.data []

/-! ## Constants of lib.ts -/

/-- Minimum xar header size in bytes. -/
def XAR_HEADER_SIZE : Nat := 28

/-- The magic number, ASCII for the four characters of the format name. -/
def XAR_MAGIC : Nat := 0x78617221

/-- Checksum algorithm identifier for SHA-1. -/
def XAR_CHECKSUM_SHA1 : Nat := 1

/-- The fixed signature slot size lib.ts reserves (256 bytes, the signature
size of a 2048-bit RSA key). -/
def RSA_SIGNATURE_SIZE : Nat := 256

/-- digestSize of lib.ts: only SHA-1 is supported, whose digest is 20
bytes. -/
def digestSize : Nat := 20

/-! ## Big-endian byte codec (the ctype calls of lib.ts)

lib.ts encodes and decodes the 28-byte header through the ctype package
with big-endian fields.  The encoding is embedded concretely.  A 64-bit
field is written from a pair of 32-bit words with a zero high word, and
read back through ctype's toAbs64, which is hi times two to the 32nd plus
lo. -/

/-- Big-endian bytes of a 16-bit value. -/
def beBytes2 (n : Nat) : List Nat :=
  [n / 256 % 256, n % 256]

/-- Big-endian bytes of a 32-bit value. -/
def beBytes4 (n : Nat) : List Nat :=
  [n / 16777216 % 256, n / 65536 % 256, n / 256 % 256, n % 256]

/-- Big-endian value of a byte list. -/
def beNat (bs : List Nat) : Nat :=
  bs.foldl (fun a b => a * 256 + b) 0

/-- ctype rejects 32-bit field values of 2 to the 32 or larger. -/
def u32Bound : Nat := 4294967296

/-- The 28 header bytes generate writes: magic, header size, version 1,
the two 64-bit TOC lengths written as a zero word followed by the length,
and the checksum algorithm. -/
def encodeXarHeader (tocLengthCompressed tocLengthUncompressed : Nat) : List Nat :=
  beBytes4 XAR_MAGIC ++ beBytes2 XAR_HEADER_SIZE ++ beBytes2 1 ++
    (beBytes4 0 ++ beBytes4 tocLengthCompressed) ++
    (beBytes4 0 ++ beBytes4 tocLengthUncompressed) ++
    beBytes4 XAR_CHECKSUM_SHA1

/-- The decoded header record of lib.ts. -/
structure XarHeader where
  size : Nat
  version : Nat
  tocLengthCompressed : Nat
  tocLengthUncompressed : Nat
  checksumAlgorithm : Nat
deriving DecidableEq, Repr

/-- Errors thrown on the reader path of lib.ts. -/
inductive TocErr where
  | inputTooShort
  | invalidMagic
  | headerTooSmall
  | unsupportedChecksum
  | checksumMismatch
  | tocLengthMismatch
deriving DecidableEq, Repr

/-- readHeader of lib.ts: read 28 bytes, check the length, decode the
big-endian fields, and validate magic and declared size. -/
def readHeader (reader : Nat → Nat → List Nat) : Except TocErr XarHeader :=
  let buf := reader 0 XAR_HEADER_SIZE
  if buf.length < XAR_HEADER_SIZE then .error .inputTooShort
  else
    let magic := beNat (buf.take 4)
    let size := beNat ((buf.drop 4).take 2)
    let version := beNat ((buf.drop 6).take 2)
    let compHi := beNat ((buf.drop 8).take 4)
    let compLo := beNat ((buf.drop 12).take 4)
    let uncompHi := beNat ((buf.drop 16).take 4)
    let uncompLo := beNat ((buf.drop 20).take 4)
    let cksumAlg := beNat ((buf.drop 24).take 4)
    if magic ≠ XAR_MAGIC then .error .invalidMagic
    else if size < XAR_HEADER_SIZE then .error .headerTooSmall
    else .ok
      { size := size
        version := version
        tocLengthCompressed := compHi * u32Bound + compLo
        tocLengthUncompressed := uncompHi * u32Bound + uncompLo
        checksumAlgorithm := cksumAlg }

/-! ## File tree data model -/

/-- XarFileData of lib.ts.  Optional fields are undefined until generation
fills them in. -/
structure XarFileData where
  archivedChecksum : Option String := none
  extractedChecksum : Option String := none
  offset : Option Nat := none
  size : Nat
  length : Option Nat := none
  data : Option (List Nat) := none
deriving DecidableEq, Repr

/-- XarFile of lib.ts: a file entry with its data record, or a directory
with ordered children.  An id of 0 models an unset JavaScript id (both 0
and undefined are falsy there); an empty srcPath models an unset source
path for the same reason. -/
inductive XarFile where
  | file (id : Nat) (name : String) (srcPath : String) (data : XarFileData)
  | dir (id : Nat) (name : String) (srcPath : String) (children : List XarFile)

/-- SignatureResources of lib.ts. -/
structure SignatureResources where
  cert : String
  privateKey : String
  additionalCerts : List String
deriving DecidableEq, Repr

/-! ## Table of contents model

generateTOC builds a nested object which xml2js serializes.  The object is
embedded as a structure; serialization to XML text and UTF-8 bytes is an
abstract primitive in `Env`. -/

/-- The data element of a file entry in the TOC. -/
structure TocFileData where
  offset : Nat
  size : Nat
  length : Option Nat
  archivedChecksum : String
  extractedChecksum : String
deriving DecidableEq, Repr

/-- The signature element of the TOC. -/
structure TocSignature where
  offset : Nat
  size : Nat
  certs : List String
deriving DecidableEq, Repr

/-- A file element of the TOC, produced by xarFileTOCEntry. -/
inductive TocEntry where
  | file (id : Nat) (name : String) (data : TocFileData)
  | dir (id : Nat) (name : String) (children : List TocEntry)

/-- The toc object generateTOC builds. -/
structure TocStruct where
  creationTime : String
  checksumSize : Nat
  checksumOffset : Nat
  signatureCreationTime : Option Int
  signature : Option TocSignature
  files : List TocEntry

/-- External primitives used by lib.ts: Node crypto's raw SHA-1 digest,
pako's deflate and inflate, RSA-SHA1 signing with a PEM private key (Node
createSign applied to the compressed data and a key), xml2js serialization
of the toc object to UTF-8 bytes, and the clock values generateTOC reads. -/
structure Env where
  sha1 : List Nat → List Nat
  deflate : List Nat → List Nat
  inflate : List Nat → List Nat
  sign : String → List Nat → List Nat
  xmlTOC : TocStruct → List Nat
  creationTime : String
  signatureTimestamp : Int

/-- Errors and failed assertions on the generation path of lib.ts. -/
inductive GenErr where
  | missingID
  | missingName
  | missingSrcPath
  | heapDataMissing
  | archivedChecksumMissing
  | extractedChecksumMissing
  | missingPEMSection
  | readSizeMismatch
  | tocHashSizeMismatch
  | signatureSizeMismatch
  | headerFieldOverflow
  | heapOffsetMismatch
  | dataLengthMismatch
deriving DecidableEq, Repr

/-! ## PEM extraction -/

/-- One step of the reduce in extractPEMSection: inside a section, an END
marker line closes it and any other line is collected; outside a section,
a BEGIN marker line opens it and any other line is ignored. -/
def pemStep (sectionType : String) (st : Bool × List String) (line : String) :
    Bool × List String :=
  if st.1 then
    if strContains line ("----END " ++ sectionType) then (false, st.2)
    else (true, st.2 ++ [line])
  else if strContains line ("----BEGIN " ++ sectionType) then (true, st.2)
  else (false, st.2)

/-- extractPEMSection of lib.ts: split into lines, run the marker state
machine over them, and join the collected lines with newlines. -/
def extractPEMSection (cert : String) (sectionType : String) : String :=
  String.intercalate "\n" ((splitLines cert).foldl (pemStep sectionType) (false, [])).2

/-- extractCertSection of lib.ts: extract the CERTIFICATE section and fail
when the result is empty. -/
def extractCertSection (pemFile : String) : Except GenErr String :=
  let cert := extractPEMSection pemFile "CERTIFICATE"
  if cert.length = 0 then .error .missingPEMSection else .ok cert

/-- Map extractCertSection over the additional certificates. -/
def extractCertList : List String → Except GenErr (List String)
  | [] => .ok []
  | c :: cs =>
      match extractCertSection c with
      | .error e => .error e
      | .ok s =>
          match extractCertList cs with
          | .error e => .error e
          | .ok ss => .ok (s :: ss)

/-! ## Tree walks of generate

walkFileTree visits a node and then its children in order, passing each
node's own srcPath to the visitor.  The three uses in generate (computing
the maximum pre-assigned id, assigning fresh ids, collecting file entries
with their paths) are embedded as structural walks.  In JavaScript the
collected file list aliases the tree nodes; the embedding keeps explicit
indices into the depth-first enumeration of file entries and writes
updated data records back into the tree where the source relies on
aliasing. -/

mutual
/-- The first walk of generate on one node: fold the maximum pre-assigned
id (unset ids are falsy and skipped). -/
def maxIDFile : XarFile → Nat → Nat
  | .file i _ _ _, m => if i ≠ 0 then max i m else m
  | .dir i _ _ cs, m => maxIDList cs (if i ≠ 0 then max i m else m)
/-- The first walk of generate over a forest. -/
def maxIDList : List XarFile → Nat → Nat
  | [], m => m
  | t :: ts, m => maxIDList ts (maxIDFile t m)
end

mutual
/-- The second walk of generate on one node: give each node lacking an id
the next counter value (the counter is incremented first, so the first
fresh id is one above the running maximum). -/
def assignFile : XarFile → Nat → XarFile × Nat
  | .file i n sp d, c =>
      if i = 0 then (.file (c + 1) n sp d, c + 1) else (.file i n sp d, c)
  | .dir i n sp cs, c =>
      let p := if i = 0 then (c + 1, c + 1) else (i, c)
      let q := assignList cs p.2
      (.dir p.1 n sp q.1, q.2)
/-- The second walk of generate over a forest. -/
def assignList : List XarFile → Nat → List XarFile × Nat
  | [], c => ([], c)
  | t :: ts, c =>
      let p := assignFile t c
      let q := assignList ts p.2
      (p.1 :: q.1, q.2)
end

/-- One entry of the fileList and paths arrays generate collects: the
depth-first position of the file entry among file entries, its id and
name, the path pushed alongside it, and its data record. -/
structure FileRef where
  idx : Nat
  id : Nat
  name : String
  srcPath : String
  data : XarFileData
deriving DecidableEq, Repr

mutual
/-- Collect the file entries (not directories) of one node in depth-first
order, numbering them from the given counter. -/
def collectFile : XarFile → Nat → List FileRef × Nat
  | .file i n sp d, k => ([⟨k, i, n, sp, d⟩], k + 1)
  | .dir _ _ _ cs, k => collectList cs k
/-- Collect the file entries of a forest in depth-first order. -/
def collectList : List XarFile → Nat → List FileRef × Nat
  | [], k => ([], k)
  | t :: ts, k =>
      let p := collectFile t k
      let q := collectList ts p.2
      (p.1 ++ q.1, q.2)
end

/-- Data record to store at depth-first file position k after the layout
pass: the updated record when position k was collected, the old one
otherwise. -/
def updatedDataAt (rs : List FileRef) (k : Nat) (d : XarFileData) : XarFileData :=
  match rs.find? (fun r => r.idx == k) with
  | some r => r.data
  | none => d

mutual
/-- Write the records updated by the layout pass back into one node; in
the source this happens through object aliasing between the tree and the
collected file list. -/
def writeBackFile : XarFile → List FileRef → Nat → XarFile × Nat
  | .file i n sp d, rs, k => (.file i n sp (updatedDataAt rs k d), k + 1)
  | .dir i n sp cs, rs, k =>
      let p := writeBackList cs rs k
      (.dir i n sp p.1, p.2)
/-- Write updated records back into a forest. -/
def writeBackList : List XarFile → List FileRef → Nat → List XarFile × Nat
  | [], _, k => ([], k)
  | t :: ts, rs, k =>
      let p := writeBackFile t rs k
      let q := writeBackList ts rs p.2
      (p.1 :: q.1, q.2)
end

/-- The fileList sort of generate, comparator ascending by id.  The
engine's sort is stable; a stable insertion sort models it. -/
def sortFileList (rs : List FileRef) : List FileRef :=
  rs.insertionSort (fun a b => a.id ≤ b.id)

/-- The forest after the id-assignment pass of generate. -/
def assignedFiles (files : List XarFile) : List XarFile :=
  (assignList files (maxIDList files 0)).1

/-- The sorted file list generate lays out: file entries of the assigned
forest in depth-first order, sorted ascending by id. -/
def plannedFileList (files : List XarFile) : List FileRef :=
  sortFileList (collectList (assignedFiles files) 0).1

/-- The paths array generate collects alongside the file list: the source
path of each file entry in depth-first traversal order.  The source sorts
only the file list afterwards, so this array stays in traversal order. -/
def plannedPaths (files : List XarFile) : List String :=
  ((collectList (assignedFiles files) 0).1).map (fun r => r.srcPath)

/-! ## Layout pass -/

/-- The per-file layout loop of generate.  A file with a preset offset is
left untouched.  Otherwise the provider's reader is asked for the file's
size bytes from offset 0, the read length is asserted, the bytes are
deflated, and the data record receives the compressed bytes, their length,
the current heap cursor as offset and both checksums, after which the
cursor advances.  The path handed to the provider is the entry of the
paths array at the loop index: the source builds that array in traversal
order and then sorts only the file list, so the loop pairs each id-sorted
entry with the path at its sorted position, not necessarily its own
srcPath.  The last argument numbers the files (positions in the sorted
list); the returned list records the positions at which the provider was
invoked. -/
def layoutFiles (env : Env) (fileDataProvider : String → Nat → Nat → List Nat)
    (paths : List String) :
    List FileRef → Nat → Nat → Except GenErr (List FileRef × Nat × List Nat)
  | [], heapSize, _ => .ok ([], heapSize, [])
  | r :: rs, heapSize, k =>
      match r.data.offset with
      | some _ =>
          match layoutFiles env fileDataProvider paths rs heapSize (k + 1) with
          | .error e => .error e
          | .ok (rs', h', cs) => .ok (r :: rs', h', cs)
      | none =>
          let sourceData := fileDataProvider (paths.getD k "") 0 r.data.size
          if sourceData.length = r.data.size then
            let compressed := env.deflate sourceData
            let d' : XarFileData :=
              { r.data with
                data := some compressed
                length := some compressed.length
                offset := some heapSize
                archivedChecksum := some (shasum env.sha1 compressed)
                extractedChecksum := some (shasum env.sha1 sourceData) }
            match layoutFiles env fileDataProvider paths rs (heapSize + compressed.length) (k + 1) with
            | .error e => .error e
            | .ok (rs', h', cs) => .ok ({ r with data := d' } :: rs', h', k :: cs)
          else .error .readSizeMismatch

/-! ## TOC construction -/

mutual
/-- xarFileTOCEntry of lib.ts: assert id, name and srcPath are set; a
directory entry nests its children's entries; a file entry requires a
numeric offset and both checksums and carries its data element. -/
def xarFileTOCEntry : XarFile → Except GenErr TocEntry
  | .file i n sp d =>
      if i = 0 then .error .missingID
      else if n = "" then .error .missingName
      else if sp = "" then .error .missingSrcPath
      else
        match d.offset with
        | none => .error .heapDataMissing
        | some off =>
            if d.archivedChecksum.getD "" = "" then .error .archivedChecksumMissing
            else if d.extractedChecksum.getD "" = "" then .error .extractedChecksumMissing
            else .ok (.file i n
              { offset := off
                size := d.size
                length := d.length
                archivedChecksum := d.archivedChecksum.getD ""
                extractedChecksum := d.extractedChecksum.getD "" })
  | .dir i n sp cs =>
      if i = 0 then .error .missingID
      else if n = "" then .error .missingName
      else if sp = "" then .error .missingSrcPath
      else
        match xarFileTOCEntryList cs with
        | .error e => .error e
        | .ok es => .ok (.dir i n es)
/-- xarFileTOCEntry mapped over a forest. -/
def xarFileTOCEntryList : List XarFile → Except GenErr (List TocEntry)
  | [] => .ok []
  | t :: ts =>
      match xarFileTOCEntry t with
      | .error e => .error e
      | .ok e =>
          match xarFileTOCEntryList ts with
          | .error e' => .error e'
          | .ok es => .ok (e :: es)
end

/-- generateTOC of lib.ts: a checksum element of the digest size at heap
offset 0; when signing, a signature-creation-time and a signature element
at the next heap offset whose size is the fixed RSA_SIGNATURE_SIZE and
whose certificates are the extracted leaf body followed by the extracted
additional bodies in order; then the file forest. -/
def generateTOC (env : Env) (signatureResources : Option SignatureResources)
    (files : List XarFile) : Except GenErr TocStruct :=
  match signatureResources with
  | some res =>
      (match extractCertSection res.cert with
       | .error e => .error e
       | .ok leaf =>
          match extractCertList res.additionalCerts with
          | .error e => .error e
          | .ok more =>
              match xarFileTOCEntryList files with
              | .error e => .error e
              | .ok entries => .ok
                  { creationTime := env.creationTime
                    checksumSize := digestSize
                    checksumOffset := 0
                    signatureCreationTime := some env.signatureTimestamp
                    signature := some
                      { offset := digestSize
                        size := RSA_SIGNATURE_SIZE
                        certs := leaf :: more }
                    files := entries })
  | none =>
      match xarFileTOCEntryList files with
      | .error e => .error e
      | .ok entries => .ok
          { creationTime := env.creationTime
            checksumSize := digestSize
            checksumOffset := 0
            signatureCreationTime := none
            signature := none
            files := entries }

/-! ## Emission -/

/-- The final loop of generate over the heap writer: for each file entry,
assert the bytes written so far equal its offset and that its buffered
data has the recorded length, then write the buffer. -/
def emitFiles : List FileRef → Nat → Except GenErr (List Nat)
  | [], _ => .ok []
  | r :: rs, bytesWritten =>
      match r.data.offset with
      | none => .error .heapOffsetMismatch
      | some off =>
          if bytesWritten = off then
            match r.data.data with
            | none => .error .dataLengthMismatch
            | some d =>
                if r.data.length = some d.length then
                  match emitFiles rs (bytesWritten + d.length) with
                  | .error e => .error e
                  | .ok rest => .ok (d ++ rest)
                else .error .dataLengthMismatch
          else .error .heapOffsetMismatch

/-- Everything generate has produced when it returns: the bytes written to
the output writer, the forest and sorted file list with their mutated data
records, the positions at which the file data provider was invoked, the
final heap size, and the toc object with its serialized and compressed
forms. -/
structure GenResult where
  output : List Nat
  files : List XarFile
  fileList : List FileRef
  calls : List Nat
  heapSize : Nat
  toc : TocStruct
  tocBytes : List Nat
  compressedTOC : List Nat

/-- generate of lib.ts.  The heap cursor starts at the digest size
(reserving the TOC checksum slot) plus, when signing, the fixed signature
slot; ids are assigned; file entries are collected, sorted by id and laid
out; the TOC is built, serialized and deflated; the header, compressed
TOC, TOC checksum, optional signature over the compressed TOC and the file
payloads are written in order.  Failed asserts surface as errors. -/
def generate (env : Env) (signatureResources : Option SignatureResources)
    (files : List XarFile) (fileDataProvider : String → Nat → Nat → List Nat) :
    Except GenErr GenResult :=
  let heapSize1 := digestSize + (if signatureResources.isSome then RSA_SIGNATURE_SIZE else 0)
  let assigned := assignedFiles files
  let fileList := plannedFileList files
  let paths := plannedPaths files
  match layoutFiles env fileDataProvider paths fileList heapSize1 0 with
  | .error e => .error e
  | .ok (fileList', heapSize2, calls) =>
      let files' := (writeBackList assigned fileList' 0).1
      match generateTOC env signatureResources files' with
      | .error e => .error e
      | .ok toc =>
          let tocBytes := env.xmlTOC toc
          let compressedTOC := env.deflate tocBytes
          if compressedTOC.length < u32Bound ∧ tocBytes.length < u32Bound then
            let headerBytes := encodeXarHeader compressedTOC.length tocBytes.length
            let tocHash := env.sha1 compressedTOC
            if tocHash.length = digestSize then
              match signatureResources with
              | some res =>
                  let signature := env.sign res.privateKey compressedTOC
                  if signature.length = RSA_SIGNATURE_SIZE then
                    match emitFiles fileList' (tocHash.length + signature.length) with
                    | .error e => .error e
                    | .ok payloads => .ok
                        { output := headerBytes ++ compressedTOC ++ tocHash ++ signature ++ payloads
                          files := files'
                          fileList := fileList'
                          calls := calls
                          heapSize := heapSize2
                          toc := toc
                          tocBytes := tocBytes
                          compressedTOC := compressedTOC }
                  else .error .signatureSizeMismatch
              | none =>
                  match emitFiles fileList' tocHash.length with
                  | .error e => .error e
                  | .ok payloads => .ok
                      { output := headerBytes ++ compressedTOC ++ tocHash ++ payloads
                        files := files'
                        fileList := fileList'
                        calls := calls
                        heapSize := heapSize2
                        toc := toc
                        tocBytes := tocBytes
                        compressedTOC := compressedTOC }
            else .error .tocHashSizeMismatch
          else .error .headerFieldOverflow

/-! ## Reader path -/

/-- A Reader over an in-memory byte list; read gives length bytes starting
at the offset (fewer near the end of the data). -/
def listReader (bytes : List Nat) (offset length : Nat) : List Nat :=
  (bytes.drop offset).take length

/-- tableOfContentsXML of lib.ts: decode and validate the header, read the
compressed TOC behind the header and the 20 stored checksum bytes behind
it, reject unsupported checksum algorithms, compare the stored checksum
with SHA-1 of the compressed TOC, inflate, and compare the resulting
length with the header's uncompressed length.  Returns the decompressed
TOC bytes (the source decodes them as UTF-8 text). -/
def tableOfContentsXML (env : Env) (reader : Nat → Nat → List Nat) :
    Except TocErr (List Nat) :=
  match readHeader reader with
  | .error e => .error e
  | .ok header =>
      let compressedTOC := reader header.size header.tocLengthCompressed
      if header.checksumAlgorithm ≠ XAR_CHECKSUM_SHA1 then .error .unsupportedChecksum
      else
        let expectedChecksum := reader (header.size + header.tocLengthCompressed) digestSize
        let actualChecksum := env.sha1 compressedTOC
        if actualChecksum ≠ expectedChecksum then .error .checksumMismatch
        else
          let tocData := env.inflate compressedTOC
          if tocData.length ≠ header.tocLengthUncompressed then .error .tocLengthMismatch
          else .ok tocData

/-! ## FileReader -/

/-- Failure of the underlying synchronous read primitive. -/
inductive ReadErr where
  | readFailed
deriving DecidableEq, Repr

/-- FileReader.read of io.ts over an abstract fs read primitive: a
zero-length read returns the fresh empty buffer immediately, working
around the primitive's error on zero-byte reads, and any other read is
delegated. -/
def fileReaderRead (fsRead : Nat → Nat → Except ReadErr (List Nat))
    (offset length : Nat) : Except ReadErr (List Nat) :=
  if length = 0 then .ok [] else fsRead offset length

/-! ## The id assignment pass in terms of the depth-first id sequence -/

mutual
/-- The ids of one node and its descendants in depth-first preorder. -/
def dfsIdsFile : XarFile → List Nat
  | .file i _ _ _ => [i]
  | .dir i _ _ cs => i :: dfsIdsList cs
/-- The ids of a forest in depth-first preorder. -/
def dfsIdsList : List XarFile → List Nat
  | [] => []
  | t :: ts => dfsIdsFile t ++ dfsIdsList ts
end

/-- What the assignment pass does to the id sequence: each 0 (unset id) is
replaced by the incremented counter, in order. -/
def fillFrom (c : Nat) : List Nat → List Nat × Nat
  | [] => ([], c)
  | i :: is =>
      let p := if i = 0 then (c + 1, c + 1) else (i, c)
      let q := fillFrom p.2 is
      (p.1 :: q.1, q.2)

/-- The entries of a list occupy consecutive heap intervals starting at
the first cursor value and ending exactly at the final heap size. -/
def offsetsOK : Nat → List FileRef → Nat → Prop
  | c, [], hEnd => hEnd = c
  | c, r :: rs, hEnd =>
      ∃ l, r.data.offset = some c ∧ r.data.length = some l ∧ offsetsOK (c + l) rs hEnd

/-! ## Concrete environments and inputs used to exercise the generator -/

instance : Inhabited TocStruct := ⟨⟨"", 0, 0, none, none, []⟩⟩

instance : Inhabited GenResult := ⟨⟨[], [], [], [], 0, default, [], []⟩⟩

instance : IsTotal FileRef (fun a b => a.id ≤ b.id) :=
  ⟨fun a b => Nat.le_total a.id b.id⟩

instance : IsTrans FileRef (fun a b => a.id ≤ b.id) :=
  ⟨fun _ _ _ hab hbc => Nat.le_trans hab hbc⟩

/-- A computable model environment: the digest primitive returns twenty
zero bytes, deflate prepends a two-byte marker (so inflating drops it),
signing returns 256 bytes, and serialization returns five fixed bytes. -/
def envA : Env where
  sha1 := fun _ => List.replicate 20 0
  deflate := fun b => 3 :: 0 :: b
  inflate := fun b => b.drop 2
  sign := fun _ _ => List.replicate 256 1
  xmlTOC := fun _ => [60, 120, 97, 114, 62]
  creationTime := "2016-01-01T00:00:00.000Z"
  signatureTimestamp := 473385600

/-- The model environment with a key whose RSA signatures are 384 bytes,
as a 3072-bit private key produces. -/
def env384 : Env := { envA with sign := fun _ _ => List.replicate 384 1 }

/-- A file data provider whose readers return the requested number of
bytes, all of value five. -/
def provA : String → Nat → Nat → List Nat := fun _ _ len => List.replicate len 5

/-- A three-byte file entry with no preset fields. -/
def fileA : XarFile := .file 0 "a.txt" "/src/a.txt" { size := 3 }

/-- The planned file list entry that collecting fileA produces. -/
def fileARef : FileRef := ⟨0, 1, "a.txt", "/src/a.txt", { size := 3 }⟩

/-- An empty file entry. -/
def fileEmpty : XarFile := .file 0 "empty" "/src/empty" { size := 0 }

/-- A minimal PEM certificate text. -/
def certPemA : String := "-----BEGIN CERTIFICATE-----\nAAA\n-----END CERTIFICATE-----"

/-- Signing resources over the minimal certificate. -/
def resA : SignatureResources :=
  { cert := certPemA, privateKey := "KEY", additionalCerts := [] }

/-- A fully preset data record: offset, length, buffered bytes and both
checksums already filled in. -/
def presetData : XarFileData :=
  { archivedChecksum := some "aa", extractedChecksum := some "bb",
    offset := some 20, size := 3, length := some 2, data := some [9, 8] }

/-- A file entry carrying the preset record. -/
def filePre : XarFile := .file 1 "p.bin" "/src/p.bin" presetData

/-- The planned file list entry that collecting filePre produces. -/
def filePreRef : FileRef := ⟨0, 1, "p.bin", "/src/p.bin", presetData⟩

/-- The result of generating the one-file archive without signing. -/
def runA : GenResult := (generate envA none [fileA] provA).toOption.getD default

/-- The result of generating the one-file archive with signing. -/
def runASigned : GenResult :=
  (generate envA (some resA) [fileA] provA).toOption.getD default

/-- The result of generating the archive holding the preset file. -/
def runPre : GenResult := (generate envA none [filePre] provA).toOption.getD default

/-- The result of the layout pass over the planned list of the one-file
archive. -/
def layA : List FileRef × Nat × List Nat :=
  (layoutFiles envA provA (plannedPaths [fileA]) (plannedFileList [fileA])
    (digestSize + if (none : Option SignatureResources).isSome then RSA_SIGNATURE_SIZE else 0)
    0).toOption.getD ([], 0, [])

/-- The model environment with a digest that depends on its input (the
first twenty bytes, zero padded), so checksums distinguish sources. -/
def envB : Env := { envA with sha1 := fun b => (b ++ List.replicate 20 0).take 20 }

/-- Two file entries whose pre-assigned ids invert traversal order. -/
def c4files : List XarFile :=
  [.file 2 "b" "/b" { size := 3 }, .file 1 "c" "/c" { size := 3 }]

/-- A provider returning different bytes for the two paths. -/
def c4prov : String → Nat → Nat → List Nat :=
  fun path _ len => if path = "/b" then List.replicate len 7 else List.replicate len 9

/-- A PEM text with junk around two CERTIFICATE sections. -/
def c6pem : String :=
  "junk\n-----BEGIN CERTIFICATE-----\nAAA\n-----END CERTIFICATE-----\n-----BEGIN CERTIFICATE-----\nBBB\n-----END CERTIFICATE-----\ntrailer"

/-- Two file entries pre-assigned the same id. -/
def c7dup : List XarFile :=
  [.file 1 "a" "/a" { size := 0 }, .file 1 "b" "/b" { size := 0 }]

/-- A forest mixing unset ids with the preset id five. -/
def c7files : List XarFile :=
  [.dir 0 "d" "/d" [.file 5 "a" "/a" { size := 1 }], .file 0 "b" "/b" { size := 2 }]

/-- Bytes of a small archive image whose stored checksum matches the model
digest and whose decompressed TOC length disagrees with the header. -/
def c8bytes : List Nat := encodeXarHeader 3 4 ++ [9, 9, 9] ++ List.replicate 20 0

/-! ## Helper lemmas about the byte codec -/

theorem encodeXarHeader_length (c u : Nat) :
    (encodeXarHeader c u).length = XAR_HEADER_SIZE := by
  simp [encodeXarHeader, beBytes4, beBytes2, XAR_HEADER_SIZE]

theorem drop_len_append (a b : List Nat) (n : Nat) (h : n = a.length) :
    (a ++ b).drop n = b := by
  subst h; simp

theorem take_len_append (a b : List Nat) (n : Nat) (h : n = a.length) :
    (a ++ b).take n = a := by
  subst h; simp

/-- Decoding the header generate wrote recovers the written lengths: the
encode and decode sides of the ctype usage agree. -/
theorem readHeader_listReader (tocC tocU : Nat) (rest : List Nat)
    (hC : tocC < u32Bound) (hU : tocU < u32Bound) :
    readHeader (listReader (encodeXarHeader tocC tocU ++ rest)) =
      .ok ⟨XAR_HEADER_SIZE, 1, tocC, tocU, XAR_CHECKSUM_SHA1⟩ := by
  have hC' : tocC < 4294967296 := hC
  have hU' : tocU < 4294967296 := hU
  simp only [readHeader, listReader, encodeXarHeader, beBytes4, beBytes2, beNat,
    XAR_HEADER_SIZE, XAR_MAGIC, XAR_CHECKSUM_SHA1, u32Bound,
    List.cons_append, List.nil_append, List.drop_zero, List.take_succ_cons,
    List.take_zero, List.drop_succ_cons, List.length_cons, List.length_nil,
    List.foldl_cons, List.foldl_nil]
  norm_num
  constructor <;> omega

/-! ## Decomposition of a successful generate run -/

/-- Anatomy of a successful generate run: the layout pass succeeded on the
planned file list starting behind the checksum and optional signature
slots, the TOC was built from the written-back forest, the header fields
fit, the TOC hash has digest size, the signature bytes (empty when not
signing) have the fixed size, emission of the payloads succeeded, and the
output is the concatenation of header, compressed TOC, TOC hash, signature
bytes and payloads. -/
theorem generate_ok {env : Env} {res : Option SignatureResources} {files : List XarFile}
    {provider : String → Nat → Nat → List Nat} {r : GenResult}
    (h : generate env res files provider = .ok r) :
    ∃ sigBytes payloads,
      layoutFiles env provider (plannedPaths files) (plannedFileList files)
          (digestSize + if res.isSome then RSA_SIGNATURE_SIZE else 0) 0 =
        .ok (r.fileList, r.heapSize, r.calls) ∧
      r.files = (writeBackList (assignedFiles files) r.fileList 0).1 ∧
      generateTOC env res r.files = .ok r.toc ∧
      r.tocBytes = env.xmlTOC r.toc ∧
      r.compressedTOC = env.deflate r.tocBytes ∧
      r.compressedTOC.length < u32Bound ∧
      r.tocBytes.length < u32Bound ∧
      (env.sha1 r.compressedTOC).length = digestSize ∧
      (res = none → sigBytes = []) ∧
      (∀ rs, res = some rs → sigBytes = env.sign rs.privateKey r.compressedTOC) ∧
      sigBytes.length = (if res.isSome then RSA_SIGNATURE_SIZE else 0) ∧
      emitFiles r.fileList (digestSize + sigBytes.length) = .ok payloads ∧
      r.output = encodeXarHeader r.compressedTOC.length r.tocBytes.length ++
        r.compressedTOC ++ env.sha1 r.compressedTOC ++ sigBytes ++ payloads := by
  simp only [generate] at h
  split at h
  · exact absurd h (by simp)
  rename_i fl' hs2 calls hl
  split at h
  · exact absurd h (by simp)
  rename_i toc htoc
  split at h
  swap
  · exact absurd h (by simp)
  rename_i hbounds
  split at h
  swap
  · exact absurd h (by simp)
  rename_i hhash
  split at h
  · rename_i rs
    split at h
    swap
    · exact absurd h (by simp)
    rename_i hsiglen
    split at h
    · exact absurd h (by simp)
    rename_i payloads hemit
    simp only [Except.ok.injEq] at h
    subst h
    refine ⟨env.sign rs.privateKey (env.deflate (env.xmlTOC toc)), payloads,
      hl, rfl, htoc, rfl, rfl, hbounds.1, hbounds.2, hhash, ?_, ?_, ?_, ?_, rfl⟩
    · intro hq; exact absurd hq (by simp)
    · intro rs' hq
      injection hq with hq'
      subst hq'
      rfl
    · simpa using hsiglen
    · rw [hhash] at hemit; exact hemit
  · split at h
    · exact absurd h (by simp)
    rename_i payloads hemit
    simp only [Except.ok.injEq] at h
    subst h
    refine ⟨[], payloads, hl, rfl, htoc, rfl, rfl, hbounds.1, hbounds.2, hhash,
      ?_, ?_, ?_, ?_, ?_⟩
    · intro; rfl
    · intro rs' hq; exact absurd hq (by simp)
    · simp
    · rw [hhash] at hemit; simpa using hemit
    · simp

/-! ## Properties of the layout pass -/

theorem layoutFiles_length {env : Env} {p : String → Nat → Nat → List Nat}
    {paths : List String} :
    ∀ {rs : List FileRef} {heap k : Nat} {rs' : List FileRef} {h' : Nat} {cs : List Nat},
      layoutFiles env p paths rs heap k = .ok (rs', h', cs) → rs'.length = rs.length := by
  intro rs
  induction rs with
  | nil =>
      intro heap k rs' h' cs h
      simp only [layoutFiles, Except.ok.injEq, Prod.mk.injEq] at h
      obtain ⟨h1, -, -⟩ := h
      simp [← h1]
  | cons r rs ih =>
      intro heap k rs' h' cs h
      simp only [layoutFiles] at h
      split at h
      · split at h
        · exact absurd h (by simp)
        rename_i hrec
        simp only [Except.ok.injEq, Prod.mk.injEq] at h
        obtain ⟨h1, -, -⟩ := h
        simp [← h1, ih hrec]
      · split at h
        swap
        · exact absurd h (by simp)
        split at h
        · exact absurd h (by simp)
        rename_i hrec
        simp only [Except.ok.injEq, Prod.mk.injEq] at h
        obtain ⟨h1, -, -⟩ := h
        simp [← h1, ih hrec]

theorem layoutFiles_ids {env : Env} {p : String → Nat → Nat → List Nat}
    {paths : List String} :
    ∀ {rs : List FileRef} {heap k : Nat} {rs' : List FileRef} {h' : Nat} {cs : List Nat},
      layoutFiles env p paths rs heap k = .ok (rs', h', cs) →
      rs'.map (fun f => f.id) = rs.map (fun f => f.id) := by
  intro rs
  induction rs with
  | nil =>
      intro heap k rs' h' cs h
      simp only [layoutFiles, Except.ok.injEq, Prod.mk.injEq] at h
      obtain ⟨h1, -, -⟩ := h
      simp [← h1]
  | cons r rs ih =>
      intro heap k rs' h' cs h
      simp only [layoutFiles] at h
      split at h
      · split at h
        · exact absurd h (by simp)
        rename_i hrec
        simp only [Except.ok.injEq, Prod.mk.injEq] at h
        obtain ⟨h1, -, -⟩ := h
        simp [← h1, ih hrec]
      · split at h
        swap
        · exact absurd h (by simp)
        split at h
        · exact absurd h (by simp)
        rename_i hrec
        simp only [Except.ok.injEq, Prod.mk.injEq] at h
        obtain ⟨h1, -, -⟩ := h
        simp [← h1, ih hrec]

/-- A file entry carrying a preset offset passes through the layout loop
unchanged. -/
theorem layoutFiles_preserved {env : Env} {p : String → Nat → Nat → List Nat}
    {paths : List String} :
    ∀ {rs : List FileRef} {heap k : Nat} {rs' : List FileRef} {h' : Nat} {cs : List Nat},
      layoutFiles env p paths rs heap k = .ok (rs', h', cs) →
      ∀ {i : Nat} (hi : i < rs.length) {o : Nat},
        (rs.get ⟨i, hi⟩).data.offset = some o → rs'[i]? = some (rs.get ⟨i, hi⟩) := by
  intro rs
  induction rs with
  | nil => intro heap k rs' h' cs h i hi; simp at hi
  | cons r rs ih =>
      intro heap k rs' h' cs h i hi o hoff
      simp only [layoutFiles] at h
      split at h
      · split at h
        · exact absurd h (by simp)
        rename_i hrec
        simp only [Except.ok.injEq, Prod.mk.injEq] at h
        obtain ⟨h1, -, -⟩ := h
        subst h1
        cases i with
        | zero => simp
        | succ i => simpa using ih hrec (by simpa using hi) (by simpa using hoff)
      · rename_i hnone
        cases i with
        | zero =>
            have hcon : r.data.offset = some o := by simpa using hoff
            rw [hnone] at hcon; cases hcon
        | succ i =>
            split at h
            swap
            · exact absurd h (by simp)
            split at h
            · exact absurd h (by simp)
            rename_i hrec
            simp only [Except.ok.injEq, Prod.mk.injEq] at h
            obtain ⟨h1, -, -⟩ := h
            subst h1
            simpa using ih hrec (by simpa using hi) (by simpa using hoff)

/-- The call log of the layout loop holds exactly the positions of the
file entries without a preset offset: the provider is invoked for those
and only those. -/
theorem layoutFiles_calls {env : Env} {p : String → Nat → Nat → List Nat}
    {paths : List String} :
    ∀ {rs : List FileRef} {heap k : Nat} {rs' : List FileRef} {h' : Nat} {cs : List Nat},
      layoutFiles env p paths rs heap k = .ok (rs', h', cs) →
      ∀ j, j ∈ cs ↔ ∃ i, ∃ (hi : i < rs.length),
        j = k + i ∧ (rs.get ⟨i, hi⟩).data.offset = none := by
  intro rs
  induction rs with
  | nil =>
      intro heap k rs' h' cs h j
      simp only [layoutFiles, Except.ok.injEq, Prod.mk.injEq] at h
      obtain ⟨-, -, h3⟩ := h
      simp [← h3]
  | cons r rs ih =>
      intro heap k rs' h' cs h j
      simp only [layoutFiles] at h
      split at h
      · rename_i o' hsome
        split at h
        · exact absurd h (by simp)
        rename_i hrec
        simp only [Except.ok.injEq, Prod.mk.injEq] at h
        obtain ⟨-, -, h3⟩ := h
        subst h3
        rw [ih hrec j]
        constructor
        · rintro ⟨i, hi, hj, hnone⟩
          exact ⟨i + 1, by simpa using hi, by omega, by simpa using hnone⟩
        · rintro ⟨i, hi, hj, hnone⟩
          cases i with
          | zero =>
              have hcon : r.data.offset = none := by simpa using hnone
              rw [hsome] at hcon; cases hcon
          | succ i =>
              exact ⟨i, by simpa using hi, by omega, by simpa using hnone⟩
      · rename_i hnone0
        split at h
        swap
        · exact absurd h (by simp)
        split at h
        · exact absurd h (by simp)
        rename_i hrec
        simp only [Except.ok.injEq, Prod.mk.injEq] at h
        obtain ⟨-, -, h3⟩ := h
        subst h3
        constructor
        · intro hj
          rcases List.mem_cons.mp hj with hj | hj
          · exact ⟨0, by simp, by omega, by simpa using hnone0⟩
          · obtain ⟨i, hi, hji, hni⟩ := (ih hrec j).mp hj
            exact ⟨i + 1, by simpa using hi, by omega, by simpa using hni⟩
        · rintro ⟨i, hi, hj, hni⟩
          cases i with
          | zero => simp [hj]
          | succ i =>
              refine List.mem_cons.mpr (Or.inr ?_)
              exact (ih hrec j).mpr ⟨i, by simpa using hi, by omega, by simpa using hni⟩

/-! ## The offsets invariant of a freshly laid out list -/

theorem layoutFiles_offsetsOK {env : Env} {p : String → Nat → Nat → List Nat}
    {paths : List String} :
    ∀ {rs : List FileRef} {heap k : Nat} {rs' : List FileRef} {h' : Nat} {cs : List Nat},
      (∀ f ∈ rs, f.data.offset = none) →
      layoutFiles env p paths rs heap k = .ok (rs', h', cs) →
      offsetsOK heap rs' h' := by
  intro rs
  induction rs with
  | nil =>
      intro heap k rs' h' cs hfresh h
      simp only [layoutFiles, Except.ok.injEq, Prod.mk.injEq] at h
      obtain ⟨h1, h2, -⟩ := h
      simp [← h1, offsetsOK, ← h2]
  | cons r rs ih =>
      intro heap k rs' h' cs hfresh h
      simp only [layoutFiles] at h
      split at h
      · rename_i o' hsome
        have := hfresh r (by simp)
        rw [this] at hsome; cases hsome
      · split at h
        swap
        · exact absurd h (by simp)
        split at h
        · exact absurd h (by simp)
        rename_i hrec
        simp only [Except.ok.injEq, Prod.mk.injEq] at h
        obtain ⟨h1, h2, -⟩ := h
        subst h1 h2
        refine ⟨(env.deflate (p (paths.getD k "") 0 r.data.size)).length, by simp, by simp, ?_⟩
        exact ih (fun f hf => hfresh f (by simp [hf])) hrec

theorem offsetsOK_le : ∀ {c : Nat} {rs : List FileRef} {hEnd : Nat},
    offsetsOK c rs hEnd → c ≤ hEnd := by
  intro c rs
  induction rs generalizing c with
  | nil => intro hEnd h; simp [offsetsOK] at h; omega
  | cons r rs ih =>
      intro hEnd h
      obtain ⟨l, -, -, hrest⟩ := h
      have := ih hrest
      omega

theorem offsetsOK_bounds : ∀ {c : Nat} {rs : List FileRef} {hEnd : Nat},
    offsetsOK c rs hEnd →
    ∀ f ∈ rs, ∃ o l, f.data.offset = some o ∧ f.data.length = some l ∧
      c ≤ o ∧ o + l ≤ hEnd := by
  intro c rs
  induction rs generalizing c with
  | nil => intro hEnd h f hf; simp at hf
  | cons r rs ih =>
      intro hEnd h f hf
      obtain ⟨l, hoff, hlen, hrest⟩ := h
      rcases List.mem_cons.mp hf with hf | hf
      · subst hf
        exact ⟨c, l, hoff, hlen, Nat.le_refl c, offsetsOK_le hrest⟩
      · obtain ⟨o, l', ho, hl, hco, hoe⟩ := ih hrest f hf
        exact ⟨o, l', ho, hl, by omega, hoe⟩

theorem offsetsOK_contig : ∀ {c : Nat} {rs : List FileRef} {hEnd : Nat},
    offsetsOK c rs hEnd →
    ∀ i, i + 1 < rs.length →
    ∃ f g o l, rs[i]? = some f ∧ rs[i + 1]? = some g ∧
      f.data.offset = some o ∧ f.data.length = some l ∧
      g.data.offset = some (o + l) := by
  intro c rs
  induction rs generalizing c with
  | nil => intro hEnd h i hi; simp at hi
  | cons r rs ih =>
      intro hEnd h i hi
      obtain ⟨l, hoff, hlen, hrest⟩ := h
      cases i with
      | zero =>
          cases rs with
          | nil => simp at hi
          | cons r' rs' =>
              obtain ⟨l', hoff', -, -⟩ := hrest
              exact ⟨r, r', c, l, by simp, by simp, hoff, hlen, hoff'⟩
      | succ i =>
          obtain ⟨f, g, o, l', h1, h2, h3, h4, h5⟩ := ih hrest i (by simpa using hi)
          exact ⟨f, g, o, l', by simpa using h1, by simpa using h2, h3, h4, h5⟩

theorem offsetsOK_pairwise : ∀ {c : Nat} {rs : List FileRef} {hEnd : Nat},
    offsetsOK c rs hEnd →
    rs.Pairwise (fun a b => ∃ oa la ob, a.data.offset = some oa ∧
      a.data.length = some la ∧ b.data.offset = some ob ∧ oa + la ≤ ob) := by
  intro c rs
  induction rs generalizing c with
  | nil => intro hEnd h; exact List.Pairwise.nil
  | cons r rs ih =>
      intro hEnd h
      obtain ⟨l, hoff, hlen, hrest⟩ := h
      refine List.Pairwise.cons ?_ (ih hrest)
      intro b hb
      obtain ⟨ob, lb, hbo, -, hcb, -⟩ := offsetsOK_bounds hrest b hb
      exact ⟨c, l, ob, hoff, hlen, hbo, by omega⟩

/-! ## Properties of emission -/

/-- On a successful emission, every file entry's buffered bytes appear in
the emitted heap region at the entry's offset relative to the start
cursor. -/
theorem emitFiles_spec : ∀ {rs : List FileRef} {c : Nat} {bs : List Nat},
    emitFiles rs c = .ok bs →
    ∀ f ∈ rs, ∃ o d, f.data.offset = some o ∧ f.data.data = some d ∧
      c ≤ o ∧ (bs.drop (o - c)).take d.length = d := by
  intro rs
  induction rs with
  | nil => intro c bs h f hf; simp at hf
  | cons r rs ih =>
      intro c bs h f hf
      simp only [emitFiles] at h
      split at h
      · exact absurd h (by simp)
      rename_i off hoff
      split at h
      swap
      · exact absurd h (by simp)
      rename_i hcur
      split at h
      · exact absurd h (by simp)
      rename_i d hdata
      split at h
      swap
      · exact absurd h (by simp)
      rename_i hlen
      split at h
      · exact absurd h (by simp)
      rename_i rest hrest
      simp only [Except.ok.injEq] at h
      subst h
      rcases List.mem_cons.mp hf with hf | hf
      · subst hf
        refine ⟨off, d, hoff, hdata, by omega, ?_⟩
        have : off - c = 0 := by omega
        rw [this, List.drop_zero]
        exact take_len_append d rest d.length rfl
      · obtain ⟨o, d', ho, hd, hco, htake⟩ := ih hrest f hf
        refine ⟨o, d', ho, hd, by omega, ?_⟩
        have heq : o - c = d.length + (o - (c + d.length)) := by omega
        rw [heq, List.drop_append]
        exact htake

theorem fillFrom_append (c : Nat) (xs ys : List Nat) :
    fillFrom c (xs ++ ys) =
      ((fillFrom c xs).1 ++ (fillFrom (fillFrom c xs).2 ys).1,
        (fillFrom (fillFrom c xs).2 ys).2) := by
  induction xs generalizing c with
  | nil => simp [fillFrom]
  | cons x xs ih => simp [fillFrom, ih]

mutual
/-- The assignment walk on one node acts on its depth-first id sequence as
fillFrom does. -/
theorem assignFile_ids (t : XarFile) (c : Nat) :
    dfsIdsFile (assignFile t c).1 = (fillFrom c (dfsIdsFile t)).1 ∧
      (assignFile t c).2 = (fillFrom c (dfsIdsFile t)).2 := by
  cases t with
  | file i n sp d =>
      by_cases hi : i = 0 <;> simp [assignFile, dfsIdsFile, fillFrom, hi]
  | dir i n sp cs =>
      have h := assignList_ids cs (if i = 0 then c + 1 else c)
      by_cases hi : i = 0 <;>
        simp [assignFile, dfsIdsFile, fillFrom, hi, h.1, h.2] at h ⊢ <;>
        exact ⟨h.1, h.2⟩
/-- The assignment walk on a forest acts on its depth-first id sequence as
fillFrom does. -/
theorem assignList_ids (ts : List XarFile) (c : Nat) :
    dfsIdsList (assignList ts c).1 = (fillFrom c (dfsIdsList ts)).1 ∧
      (assignList ts c).2 = (fillFrom c (dfsIdsList ts)).2 := by
  cases ts with
  | nil => simp [assignList, dfsIdsList, fillFrom]
  | cons t ts =>
      have h1 := assignFile_ids t c
      have h2 := assignList_ids ts (assignFile t c).2
      rw [h1.2] at h2
      simp [assignList, dfsIdsList, fillFrom_append, h1.1, h1.2, h2.1, h2.2]
end

theorem fillFrom_length (c : Nat) (ids : List Nat) :
    (fillFrom c ids).1.length = ids.length := by
  induction ids generalizing c with
  | nil => simp [fillFrom]
  | cons i is ih => simp [fillFrom, ih]

/-- Value-level description of fillFrom: a preset (nonzero) id is kept; the
id at a zero position is one above the counter plus the number of zero
positions before it. -/
theorem fillFrom_get (ids : List Nat) : ∀ (c i : Nat) (hi : i < ids.length),
    (fillFrom c ids).1[i]? = some
      (if ids[i] = 0 then c + 1 + (ids.take i).count 0 else ids[i]) := by
  induction ids with
  | nil => intro c i hi; simp at hi
  | cons x is ih =>
      intro c i hi
      cases i with
      | zero => by_cases hx : x = 0 <;> simp [fillFrom, hx]
      | succ i =>
          have hii : i < is.length := by simpa using hi
          have hget : (x :: is)[i + 1] = is[i] := by simp
          by_cases hx : x = 0
          · have H := ih (c + 1) i hii
            have hfl : (fillFrom c (x :: is)).1 = (c + 1) :: (fillFrom (c + 1) is).1 := by
              simp [fillFrom, hx]
            have htake : ((x :: is).take (i + 1)).count 0 = (is.take i).count 0 + 1 := by
              simp [List.take_succ_cons, List.count_cons, hx]
            rw [hfl]
            simp only [List.getElem?_cons_succ]
            rw [H, hget, htake]
            refine congrArg some ?_
            by_cases h0 : is[i] = 0
            · rw [if_pos h0, if_pos h0]; omega
            · rw [if_neg h0, if_neg h0]
          · have H := ih c i hii
            have hfl : (fillFrom c (x :: is)).1 = x :: (fillFrom c is).1 := by
              simp [fillFrom, hx]
            have htake : ((x :: is).take (i + 1)).count 0 = (is.take i).count 0 := by
              simp [List.take_succ_cons, List.count_cons, hx]
            rw [hfl]
            simp only [List.getElem?_cons_succ]
            rw [H, hget, htake]

mutual
/-- The running maximum walk dominates its seed and every id it visits. -/
theorem maxIDFile_spec (t : XarFile) (m : Nat) :
    m ≤ maxIDFile t m ∧ ∀ x ∈ dfsIdsFile t, x ≤ maxIDFile t m := by
  cases t with
  | file i n sp d =>
      constructor
      · by_cases hi : i = 0
        · simp [maxIDFile, hi]
        · simp only [maxIDFile, if_pos hi]
          exact Nat.le_max_right i m
      · intro x hx
        simp only [dfsIdsFile, List.mem_singleton] at hx
        subst hx
        by_cases hi : x = 0
        · simp [maxIDFile, hi]
        · simp only [maxIDFile, if_pos hi]
          exact Nat.le_max_left x m
  | dir i n sp cs =>
      have h := maxIDList_spec cs (if i ≠ 0 then max i m else m)
      have hm : m ≤ if i ≠ 0 then max i m else m := by
        by_cases hi : i = 0
        · simp [hi]
        · rw [if_pos hi]
          exact Nat.le_max_right i m
      have hi0 : i ≤ if i ≠ 0 then max i m else m := by
        by_cases hi : i = 0
        · simp [hi]
        · rw [if_pos hi]
          exact Nat.le_max_left i m
      constructor
      · simpa only [maxIDFile] using Nat.le_trans hm h.1
      · intro x hx
        simp only [dfsIdsFile, List.mem_cons] at hx
        rcases hx with hx | hx
        · subst hx
          simpa only [maxIDFile] using Nat.le_trans hi0 h.1
        · simpa only [maxIDFile] using h.2 x hx
/-- The running maximum walk over a forest dominates its seed and every id
it visits. -/
theorem maxIDList_spec (ts : List XarFile) (m : Nat) :
    m ≤ maxIDList ts m ∧ ∀ x ∈ dfsIdsList ts, x ≤ maxIDList ts m := by
  cases ts with
  | nil => simp [maxIDList, dfsIdsList]
  | cons t ts =>
      have h1 := maxIDFile_spec t m
      have h2 := maxIDList_spec ts (maxIDFile t m)
      refine ⟨Nat.le_trans h1.1 (by simpa [maxIDList] using h2.1), ?_⟩
      intro x hx
      simp only [dfsIdsList, List.mem_append] at hx
      rcases hx with hx | hx
      · exact Nat.le_trans (h1.2 x hx) (by simpa [maxIDList] using h2.1)
      · simpa [maxIDList] using h2.2 x hx
end

/-- Zero count in a longer prefix strictly grows past a zero position. -/
theorem count_take_lt (ids : List Nat) (i j : Nat) (hij : i < j)
    (hi : i < ids.length) (h0 : ids[i] = 0) :
    (ids.take i).count 0 < (ids.take j).count 0 := by
  have hsplit : ids.take j = ids.take (i + 1) ++ (ids.drop (i + 1)).take (j - (i + 1)) := by
    rw [← List.take_add]
    congr 1
    omega
  have hsucc : ids.take (i + 1) = ids.take i ++ [ids[i]] := by
    rw [List.take_succ]
    simp [List.getElem?_eq_getElem hi]
  rw [hsplit, hsucc, h0]
  simp [List.count_append]

/-! ## Folding the PEM state machine -/

/-- The collected lines only ever grow: folding from any accumulator gives
the accumulator followed by the lines collected from an empty one. -/
theorem pemFold_acc (sectionType : String) (ls : List String) :
    ∀ (b : Bool) (acc : List String),
      (ls.foldl (pemStep sectionType) (b, acc)).2 =
        acc ++ (ls.foldl (pemStep sectionType) (b, [])).2 := by
  induction ls with
  | nil => intro b acc; simp
  | cons l ls ih =>
      intro b acc
      simp only [List.foldl_cons]
      cases b with
      | false =>
          by_cases hc : strContains l ("----BEGIN " ++ sectionType) = true
          · have hstep : pemStep sectionType (false, acc) l = (true, acc) := by
              simp [pemStep, hc]
            have hstep0 : pemStep sectionType (false, []) l = (true, []) := by
              simp [pemStep, hc]
            rw [hstep, hstep0]
            exact ih true acc
          · have hstep : pemStep sectionType (false, acc) l = (false, acc) := by
              simp [pemStep, hc]
            have hstep0 : pemStep sectionType (false, []) l = (false, []) := by
              simp [pemStep, hc]
            rw [hstep, hstep0]
            exact ih false acc
      | true =>
          by_cases hc : strContains l ("----END " ++ sectionType) = true
          · have hstep : pemStep sectionType (true, acc) l = (false, acc) := by
              simp [pemStep, hc]
            have hstep0 : pemStep sectionType (true, []) l = (false, []) := by
              simp [pemStep, hc]
            rw [hstep, hstep0]
            exact ih false acc
          · have hstep : pemStep sectionType (true, acc) l = (true, acc ++ [l]) := by
              simp [pemStep, hc]
            have hstep0 : pemStep sectionType (true, []) l = (true, [l]) := by
              simp [pemStep, hc]
            rw [hstep, hstep0]
            rw [ih true (acc ++ [l]), ih true [l]]
            simp

/-- Lines without a BEGIN marker are skipped while outside a section. -/
theorem pemFold_skip (sectionType : String) (ls : List String)
    (h : ∀ l ∈ ls, strContains l ("----BEGIN " ++ sectionType) = false) :
    ∀ acc, ls.foldl (pemStep sectionType) (false, acc) = (false, acc) := by
  induction ls with
  | nil => intro acc; simp
  | cons l ls ih =>
      intro acc
      have hl := h l (by simp)
      have hstep : pemStep sectionType (false, acc) l = (false, acc) := by
        simp [pemStep, hl]
      simp only [List.foldl_cons]
      rw [hstep]
      exact ih (fun l' hl' => h l' (by simp [hl'])) acc

/-- Lines without an END marker are all collected while inside a
section. -/
theorem pemFold_collect (sectionType : String) (ls : List String)
    (h : ∀ l ∈ ls, strContains l ("----END " ++ sectionType) = false) :
    ∀ acc, ls.foldl (pemStep sectionType) (true, acc) = (true, acc ++ ls) := by
  induction ls with
  | nil => intro acc; simp
  | cons l ls ih =>
      intro acc
      have hl := h l (by simp)
      have hstep : pemStep sectionType (true, acc) l = (true, acc ++ [l]) := by
        simp [pemStep, hl]
      simp only [List.foldl_cons]
      rw [hstep, ih (fun l' hl' => h l' (by simp [hl'])) (acc ++ [l])]
      simp

/-! ## Claims -/

/-- C1: the claim states that the signature slot size reserved in the heap
and declared in the TOC's signature size element is probed by signing a
fixed byte string with the provided key (384 for a 3072-bit key), and that
generate succeeds for RSA keys of any size.  The code instead uses the
constant RSA_SIGNATURE_SIZE = 256 everywhere and asserts that the produced
signature has exactly 256 bytes: with a key producing 384-byte signatures
the TOC still declares size 256 and generate aborts on the assertion.
This contradicts the repository's own CHANGELOG entry, which records that
the signature length is calculated by signing dummy data. -/
theorem c1_signature_size_constant_not_probed :
    generate env384 (some resA) [] (fun _ _ _ => []) = .error .signatureSizeMismatch ∧
    (generateTOC env384 (some resA) []).map
        (fun t => t.signature.map fun s => (s.offset, s.size)) =
      .ok (some (digestSize, RSA_SIGNATURE_SIZE)) ∧
    (env384.sign resA.privateKey [120]).length = 384 := by
  refine ⟨rfl, rfl, rfl⟩

/-- C9: a Reader read of length 0 returns an empty buffer without invoking
the underlying I/O primitive (it holds for every primitive, including an
always-failing one), and a FileEntry of size 0 is archived successfully:
its empty content is compressed and laid out like any other payload. -/
theorem c9_zero_length_read_empty_file :
    (∀ (fsRead : Nat → Nat → Except ReadErr (List Nat)) (offset : Nat),
      fileReaderRead fsRead offset 0 = .ok []) ∧
    (generate envA none [fileEmpty] provA).map
        (fun r => r.fileList.map fun f => (f.data.offset, f.data.length, f.data.data)) =
      .ok [(some 20, some 2, some [3, 0])] := by
  exact ⟨fun fsRead offset => rfl, rfl⟩

/-- C6 counterexample: on a PEM text with two CERTIFICATE sections the
extractor returns the concatenation of both bodies, not the body of only
the first section as the claim states. -/
theorem c6_first_section_counterexample :
    extractCertSection c6pem = .ok "AAA\nBBB" ∧ ("AAA\nBBB" : String) ≠ "AAA" := by
  exact ⟨rfl, by decide⟩

/-- C7 counterexample: two nodes pre-assigned the same id keep it through
the id-assignment pass, so the resulting ids are not unique, refuting the
claim for arbitrary input forests. -/
theorem c7_duplicate_ids_counterexample :
    dfsIdsList (assignedFiles c7dup) = [1, 1] ∧
    ¬ (dfsIdsList (assignedFiles c7dup)).Nodup := by
  exact ⟨rfl, by decide⟩

/-- C2: when signing credentials are set, the bytes written into the
heap's signature slot (256 bytes behind the header, compressed TOC and the
20-byte TOC checksum) are the RSA-SHA1 signature, produced with the
provided private key, of the compressed TOC bytes themselves — the signer
is applied to the compressed TOC, not to its SHA-1 digest. -/
theorem c2_signature_over_compressed_toc
    (env : Env) (res : SignatureResources) (files : List XarFile)
    (provider : String → Nat → Nat → List Nat) (r : GenResult)
    (hok : generate env (some res) files provider = .ok r) :
    (r.output.drop (XAR_HEADER_SIZE + r.compressedTOC.length + digestSize)).take
        RSA_SIGNATURE_SIZE =
      env.sign res.privateKey r.compressedTOC ∧
    r.compressedTOC = env.deflate r.tocBytes := by
  obtain ⟨sigBytes, payloads, hl, hwb, htoc, hxml, hdefl, hb1, hb2, hsha, -, hsome,
    hslen, hemit, hout⟩ := generate_ok hok
  have hsig := hsome res rfl
  subst hsig
  refine ⟨?_, hdefl⟩
  rw [hout]
  have hassoc : encodeXarHeader r.compressedTOC.length r.tocBytes.length ++
      r.compressedTOC ++ env.sha1 r.compressedTOC ++
      env.sign res.privateKey r.compressedTOC ++ payloads =
      (encodeXarHeader r.compressedTOC.length r.tocBytes.length ++
        r.compressedTOC ++ env.sha1 r.compressedTOC) ++
      (env.sign res.privateKey r.compressedTOC ++ payloads) := by
    simp [List.append_assoc]
  rw [hassoc,
    drop_len_append _ _ _ (by simp only [List.length_append, encodeXarHeader_length, hsha]; try omega),
    take_len_append _ _ _ (by simpa using hslen.symm)]

/-- C2 witness: the concrete signed one-file archive. -/
theorem c2_witness :
    (runASigned.output.drop
        (XAR_HEADER_SIZE + runASigned.compressedTOC.length + digestSize)).take
        RSA_SIGNATURE_SIZE =
      envA.sign resA.privateKey runASigned.compressedTOC ∧
    runASigned.compressedTOC = envA.deflate runASigned.tocBytes :=
  c2_signature_over_compressed_toc envA resA [fileA] provA runASigned rfl

/-- C4: the claim states that every file entry without a preset offset
ends with length, archivedChecksum and extractedChecksum derived from the
deflate compression of ITS OWN source bytes.  The code builds the paths
array in traversal order but indexes it by position in the id-sorted file
list, so when pre-assigned ids invert traversal order an entry is read,
compressed and checksummed from another file's path: here the entry with
source path for the second file carries the checksum of the first file's
bytes, while its own source bytes hash differently.  The spec (and the
claim) require reading from the node's own srcPath, so this is a defect of
the code, exhibited by evaluating the embedded generate at the failing
input. -/
theorem c4_sorted_paths_misaligned :
    (generate envB none c4files c4prov).map
        (fun r => r.fileList.map fun f => (f.srcPath, f.data.extractedChecksum)) =
      .ok [("/c", some (shasum envB.sha1 [7, 7, 7])),
        ("/b", some (shasum envB.sha1 [9, 9, 9]))] ∧
    c4prov "/c" 0 3 = [9, 9, 9] ∧
    shasum envB.sha1 [7, 7, 7] ≠ shasum envB.sha1 [9, 9, 9] := by
  refine ⟨rfl, rfl, by decide⟩

/-- Behaviour of the reader path once the header has decoded with the
SHA-1 checksum algorithm: the result is determined by the checksum
comparison and then the length comparison. -/
theorem tableOfContentsXML_characterization
    (env : Env) (reader : Nat → Nat → List Nat) (h : XarHeader)
    (hh : readHeader reader = .ok h)
    (halgo : h.checksumAlgorithm = XAR_CHECKSUM_SHA1) :
    tableOfContentsXML env reader =
      if env.sha1 (reader h.size h.tocLengthCompressed) ≠
          reader (h.size + h.tocLengthCompressed) digestSize
      then .error .checksumMismatch
      else if (env.inflate (reader h.size h.tocLengthCompressed)).length ≠
          h.tocLengthUncompressed
      then .error .tocLengthMismatch
      else .ok (env.inflate (reader h.size h.tocLengthCompressed)) := by
  simp only [tableOfContentsXML]
  split
  · rename_i e heq
    rw [hh] at heq
    cases heq
  · rename_i h' heq
    rw [hh] at heq
    injection heq with heq'
    subst heq'
    rw [if_neg (by simp [halgo])]

/-- C8: with a decodable header declaring the SHA-1 algorithm,
tableOfContentsXML fails with the checksum-mismatch error exactly when the
SHA-1 of the compressed TOC bytes read from the archive differs from the
20 stored checksum bytes, fails with the length-mismatch error exactly
when the checksum matches but the decompressed TOC's byte length differs
from the header's uncompressed length, and otherwise returns the
decompressed TOC bytes. -/
theorem c8_toc_error_conditions
    (env : Env) (reader : Nat → Nat → List Nat) (h : XarHeader)
    (hh : readHeader reader = .ok h)
    (halgo : h.checksumAlgorithm = XAR_CHECKSUM_SHA1) :
    (tableOfContentsXML env reader = .error .checksumMismatch ↔
      env.sha1 (reader h.size h.tocLengthCompressed) ≠
        reader (h.size + h.tocLengthCompressed) digestSize) ∧
    (tableOfContentsXML env reader = .error .tocLengthMismatch ↔
      (env.sha1 (reader h.size h.tocLengthCompressed) =
        reader (h.size + h.tocLengthCompressed) digestSize ∧
       (env.inflate (reader h.size h.tocLengthCompressed)).length ≠
        h.tocLengthUncompressed)) ∧
    ((env.sha1 (reader h.size h.tocLengthCompressed) =
        reader (h.size + h.tocLengthCompressed) digestSize ∧
      (env.inflate (reader h.size h.tocLengthCompressed)).length =
        h.tocLengthUncompressed) →
      tableOfContentsXML env reader =
        .ok (env.inflate (reader h.size h.tocLengthCompressed))) := by
  have hch := tableOfContentsXML_characterization env reader h hh halgo
  by_cases h1 : env.sha1 (reader h.size h.tocLengthCompressed) =
      reader (h.size + h.tocLengthCompressed) digestSize
  · by_cases h2 : (env.inflate (reader h.size h.tocLengthCompressed)).length =
        h.tocLengthUncompressed
    · rw [hch]
      simp [h1, h2]
    · rw [hch]
      simp [h1, h2]
  · rw [hch]
    simp [h1]

/-- C8 witness: a concrete archive image whose checksum matches but whose
decompressed TOC length disagrees with the header. -/
theorem c8_witness :
    (readHeader (listReader c8bytes) = .ok ⟨28, 1, 3, 4, 1⟩) ∧
    ((tableOfContentsXML envA (listReader c8bytes) = .error .checksumMismatch ↔
      envA.sha1 (listReader c8bytes 28 3) ≠ listReader c8bytes (28 + 3) digestSize) ∧
    (tableOfContentsXML envA (listReader c8bytes) = .error .tocLengthMismatch ↔
      (envA.sha1 (listReader c8bytes 28 3) = listReader c8bytes (28 + 3) digestSize ∧
       (envA.inflate (listReader c8bytes 28 3)).length ≠ 4)) ∧
    ((envA.sha1 (listReader c8bytes 28 3) = listReader c8bytes (28 + 3) digestSize ∧
      (envA.inflate (listReader c8bytes 28 3)).length = 4) →
      tableOfContentsXML envA (listReader c8bytes) =
        .ok (envA.inflate (listReader c8bytes 28 3)))) :=
  ⟨rfl, c8_toc_error_conditions envA (listReader c8bytes) ⟨28, 1, 3, 4, 1⟩ rfl rfl⟩

/-- C5: opening an archive produced by generate through the reader path
succeeds (given that inflating the compressed TOC inverts deflation on
it): tableOfContentsXML returns exactly the serialized TOC bytes, whose
length equals the header's uncompressed TOC length, and the 20 bytes
stored immediately after the compressed TOC equal the SHA-1 of the
compressed TOC. -/
theorem c5_generate_read_roundtrip
    (env : Env) (res : Option SignatureResources) (files : List XarFile)
    (provider : String → Nat → Nat → List Nat) (r : GenResult)
    (hok : generate env res files provider = .ok r)
    (hinf : env.inflate r.compressedTOC = r.tocBytes) :
    tableOfContentsXML env (listReader r.output) = .ok r.tocBytes ∧
    (readHeader (listReader r.output)).map (fun h => h.tocLengthUncompressed) =
      .ok r.tocBytes.length ∧
    listReader r.output (XAR_HEADER_SIZE + r.compressedTOC.length) digestSize =
      env.sha1 r.compressedTOC := by
  obtain ⟨sigBytes, payloads, hl, hwb, htoc, hxml, hdefl, hb1, hb2, hsha, -, -,
    hslen, hemit, hout⟩ := generate_ok hok
  have hout' : r.output = encodeXarHeader r.compressedTOC.length r.tocBytes.length ++
      (r.compressedTOC ++ (env.sha1 r.compressedTOC ++ (sigBytes ++ payloads))) := by
    rw [hout]
    simp [List.append_assoc]
  have e3 : readHeader (listReader r.output) =
      .ok ⟨XAR_HEADER_SIZE, 1, r.compressedTOC.length, r.tocBytes.length,
        XAR_CHECKSUM_SHA1⟩ := by
    rw [hout']
    exact readHeader_listReader _ _ _ hb1 hb2
  have e1 : listReader r.output XAR_HEADER_SIZE r.compressedTOC.length =
      r.compressedTOC := by
    rw [hout']
    simp only [listReader]
    rw [drop_len_append _ _ _ (by simp [encodeXarHeader_length])]
    exact take_len_append _ _ _ rfl
  have e2 : listReader r.output (XAR_HEADER_SIZE + r.compressedTOC.length) digestSize =
      env.sha1 r.compressedTOC := by
    rw [hout']
    simp only [listReader]
    have hgrp : encodeXarHeader r.compressedTOC.length r.tocBytes.length ++
        (r.compressedTOC ++ (env.sha1 r.compressedTOC ++ (sigBytes ++ payloads))) =
        (encodeXarHeader r.compressedTOC.length r.tocBytes.length ++ r.compressedTOC) ++
        (env.sha1 r.compressedTOC ++ (sigBytes ++ payloads)) := by
      simp [List.append_assoc]
    rw [hgrp,
      drop_len_append _ _ _ (by simp [List.length_append, encodeXarHeader_length]),
      take_len_append _ _ _ hsha.symm]
  have hc8 := tableOfContentsXML_characterization env (listReader r.output)
    ⟨XAR_HEADER_SIZE, 1, r.compressedTOC.length, r.tocBytes.length, XAR_CHECKSUM_SHA1⟩
    e3 rfl
  simp only at hc8
  rw [e1, e2, hinf] at hc8
  simp at hc8
  exact ⟨hc8, by rw [e3]; rfl, e2⟩

/-- C5 witness: the concrete unsigned one-file archive read back. -/
theorem c5_witness :
    tableOfContentsXML envA (listReader runA.output) = .ok runA.tocBytes ∧
    (readHeader (listReader runA.output)).map (fun h => h.tocLengthUncompressed) =
      .ok runA.tocBytes.length ∧
    listReader runA.output (XAR_HEADER_SIZE + runA.compressedTOC.length) digestSize =
      envA.sha1 runA.compressedTOC :=
  c5_generate_read_roundtrip envA none [fileA] provA runA rfl rfl

/-- C10: a file entry whose data offset is already set when generate is
called passes through the layout pass unchanged (its entire FileRef,
including every FileData field, is identical), the file data provider is
never invoked for its position, and during emission its pre-existing data
buffer appears verbatim in the output at the preset heap offset. -/
theorem c10_preset_offset_frame
    (env : Env) (res : Option SignatureResources) (files : List XarFile)
    (provider : String → Nat → Nat → List Nat) (r : GenResult)
    (i o : Nat) (f : FileRef) (d : List Nat)
    (hok : generate env res files provider = .ok r)
    (hf : (plannedFileList files)[i]? = some f)
    (ho : f.data.offset = some o)
    (hd : f.data.data = some d) :
    r.fileList[i]? = some f ∧
    i ∉ r.calls ∧
    (r.output.drop (XAR_HEADER_SIZE + r.compressedTOC.length + o)).take d.length = d := by
  obtain ⟨sigBytes, payloads, hl, hwb, htoc, hxml, hdefl, hb1, hb2, hsha, -, -,
    hslen, hemit, hout⟩ := generate_ok hok
  have hi : i < (plannedFileList files).length := by
    by_contra hlt
    rw [List.getElem?_eq_none (by omega)] at hf
    cases hf
  have hg := List.getElem?_eq_getElem hi
  rw [hg] at hf
  have hgf : (plannedFileList files)[i] = f := Option.some.inj hf
  have hget : (plannedFileList files).get ⟨i, hi⟩ = f := by
    rw [List.get_eq_getElem]
    exact hgf
  have hpres := layoutFiles_preserved hl hi (by rw [hget]; exact ho)
  rw [hget] at hpres
  refine ⟨hpres, ?_, ?_⟩
  · intro hmem
    obtain ⟨i', hi', hji, hnone⟩ := (layoutFiles_calls hl i).mp hmem
    have hii : i' = i := by omega
    subst hii
    have hgg : (plannedFileList files).get ⟨i', hi'⟩ = f := hget
    rw [hgg, ho] at hnone
    cases hnone
  · have hfm : f ∈ r.fileList := List.getElem?_mem hpres
    obtain ⟨o', d', ho', hd', hco, htake⟩ := emitFiles_spec hemit f hfm
    rw [ho] at ho'
    injection ho' with hoo
    subst hoo
    rw [hd] at hd'
    injection hd' with hdd
    subst hdd
    rw [hout]
    have hassoc : encodeXarHeader r.compressedTOC.length r.tocBytes.length ++
        r.compressedTOC ++ env.sha1 r.compressedTOC ++ sigBytes ++ payloads =
        (encodeXarHeader r.compressedTOC.length r.tocBytes.length ++ r.compressedTOC) ++
        ((env.sha1 r.compressedTOC ++ sigBytes) ++ payloads) := by
      simp [List.append_assoc]
    rw [hassoc]
    have hlen1 : XAR_HEADER_SIZE + r.compressedTOC.length + o =
        (encodeXarHeader r.compressedTOC.length r.tocBytes.length ++
          r.compressedTOC).length + o := by
      simp [List.length_append, encodeXarHeader_length]
    rw [hlen1, List.drop_append]
    have ho2 : o = (env.sha1 r.compressedTOC ++ sigBytes).length +
        (o - (digestSize + sigBytes.length)) := by
      simp only [List.length_append, hsha]
      omega
    rw [ho2, List.drop_append]
    exact htake

/-- C10 witness: the concrete archive holding one fully preset file. -/
theorem c10_witness :
    runPre.fileList[0]? = some filePreRef ∧
    0 ∉ runPre.calls ∧
    (runPre.output.drop (XAR_HEADER_SIZE + runPre.compressedTOC.length + 20)).take
        ([9, 8] : List Nat).length = [9, 8] :=
  c10_preset_offset_frame envA none [filePre] provA runPre 0 20 filePreRef [9, 8]
    rfl (by decide) rfl rfl

/-- C3: after a layout pass over fresh inputs (no preset offsets) the heap
begins with the 20-byte TOC-checksum slot at offset 0, followed, when
signing, by the 256-byte signature slot, and the file payloads follow: the
first file's offset is exactly the reserved prefix, every file's interval
fits under the final heap size, consecutive files in the id-sorted list
are contiguous, distinct files' intervals are pairwise disjoint, and the
list is ascending in id. -/
theorem c3_heap_layout_invariant
    (env : Env) (res : Option SignatureResources) (files : List XarFile)
    (provider : String → Nat → Nat → List Nat)
    (rs' : List FileRef) (hEnd : Nat) (cs : List Nat)
    (hfresh : ∀ f ∈ plannedFileList files, f.data.offset = none)
    (hlay : layoutFiles env provider (plannedPaths files) (plannedFileList files)
        (digestSize + if res.isSome then RSA_SIGNATURE_SIZE else 0) 0 =
      .ok (rs', hEnd, cs)) :
    (∀ f, rs'[0]? = some f →
      f.data.offset = some (digestSize + if res.isSome then RSA_SIGNATURE_SIZE else 0)) ∧
    (∀ f ∈ rs', ∃ o l, f.data.offset = some o ∧ f.data.length = some l ∧ o + l ≤ hEnd) ∧
    (∀ i, i + 1 < rs'.length → ∃ f g o l, rs'[i]? = some f ∧ rs'[i + 1]? = some g ∧
      f.data.offset = some o ∧ f.data.length = some l ∧ g.data.offset = some (o + l)) ∧
    rs'.Pairwise (fun a b => ∃ oa la ob, a.data.offset = some oa ∧
      a.data.length = some la ∧ b.data.offset = some ob ∧ oa + la ≤ ob) ∧
    rs'.Pairwise (fun a b => a.id ≤ b.id) := by
  have hOK := layoutFiles_offsetsOK hfresh hlay
  refine ⟨?_, ?_, ?_, offsetsOK_pairwise hOK, ?_⟩
  · intro f hf
    cases rs' with
    | nil => cases hf
    | cons r rs =>
        obtain ⟨l, hoff, -, -⟩ := hOK
        have hrf : r = f := by simpa using hf
        rw [← hrf]
        exact hoff
  · intro f hf
    obtain ⟨o, l, h1, h2, -, h4⟩ := offsetsOK_bounds hOK f hf
    exact ⟨o, l, h1, h2, h4⟩
  · exact fun i hi => offsetsOK_contig hOK i hi
  · have hids := layoutFiles_ids hlay
    have hsorted : (plannedFileList files).Pairwise (fun a b => a.id ≤ b.id) := by
      have hs := List.sorted_insertionSort (fun a b => a.id ≤ b.id)
        ((collectList (assignedFiles files) 0).1)
      simpa [plannedFileList, sortFileList, List.Sorted] using hs
    have h1 : List.Pairwise (fun a b => a ≤ b) (rs'.map (fun f => f.id)) := by
      rw [hids]
      exact (List.pairwise_map).mpr hsorted
    exact (List.pairwise_map).mp h1

/-- C3 witness: the layout pass of the concrete unsigned one-file
archive. -/
theorem c3_witness :
    (∀ f ∈ plannedFileList [fileA], f.data.offset = none) ∧
    ((∀ f, layA.1[0]? = some f →
      f.data.offset = some (digestSize +
        if (none : Option SignatureResources).isSome then RSA_SIGNATURE_SIZE else 0)) ∧
    (∀ f ∈ layA.1, ∃ o l, f.data.offset = some o ∧ f.data.length = some l ∧
      o + l ≤ layA.2.1) ∧
    (∀ i, i + 1 < layA.1.length → ∃ f g o l, layA.1[i]? = some f ∧
      layA.1[i + 1]? = some g ∧ f.data.offset = some o ∧ f.data.length = some l ∧
      g.data.offset = some (o + l)) ∧
    layA.1.Pairwise (fun a b => ∃ oa la ob, a.data.offset = some oa ∧
      a.data.length = some la ∧ b.data.offset = some ob ∧ oa + la ≤ ob) ∧
    layA.1.Pairwise (fun a b => a.id ≤ b.id)) :=
  ⟨by decide, c3_heap_layout_invariant envA none [fileA] provA layA.1 layA.2.1 layA.2.2
    (by decide) rfl⟩

/-- C6 (amended): for PEM text holding a CERTIFICATE section, extraction
ignores all lines before the first begin marker and returns the section's
body lines joined with newlines, FOLLOWED by whatever later sections of
the remaining lines contribute (the state machine re-enters on a later
begin marker, so later sections are concatenated rather than ignored); it
fails with the missing-section error exactly when the joined collected
body is empty. -/
theorem c6_pem_extraction_amended
    (s : String) (pre body rest : List String) (bLine eLine : String)
    (hs : splitLines s = pre ++ bLine :: (body ++ eLine :: rest))
    (hpre : ∀ l ∈ pre, strContains l "----BEGIN CERTIFICATE" = false)
    (hbody : ∀ l ∈ body, strContains l "----END CERTIFICATE" = false)
    (hb : strContains bLine "----BEGIN CERTIFICATE" = true)
    (he : strContains eLine "----END CERTIFICATE" = true) :
    extractPEMSection s "CERTIFICATE" = String.intercalate "\n"
      (body ++ (rest.foldl (pemStep "CERTIFICATE") (false, [])).2) ∧
    extractCertSection s =
      (if (String.intercalate "\n"
          (body ++ (rest.foldl (pemStep "CERTIFICATE") (false, [])).2)).length = 0
       then .error .missingPEMSection
       else .ok (String.intercalate "\n"
          (body ++ (rest.foldl (pemStep "CERTIFICATE") (false, [])).2))) := by
  have hcat1 : ("----BEGIN " ++ "CERTIFICATE" : String) = "----BEGIN CERTIFICATE" := rfl
  have hcat2 : ("----END " ++ "CERTIFICATE" : String) = "----END CERTIFICATE" := rfl
  have hmain : extractPEMSection s "CERTIFICATE" = String.intercalate "\n"
      (body ++ (rest.foldl (pemStep "CERTIFICATE") (false, [])).2) := by
    simp only [extractPEMSection]
    rw [hs, List.foldl_append]
    rw [pemFold_skip "CERTIFICATE" pre (fun l hl => by rw [hcat1]; exact hpre l hl) []]
    rw [List.foldl_cons]
    have hstepB : pemStep "CERTIFICATE" (false, []) bLine = (true, []) := by
      simp [pemStep, hcat1, hb]
    rw [hstepB, List.foldl_append]
    rw [pemFold_collect "CERTIFICATE" body (fun l hl => by rw [hcat2]; exact hbody l hl) []]
    rw [List.foldl_cons]
    have hstepE : pemStep "CERTIFICATE" (true, [] ++ body) eLine = (false, body) := by
      simp [pemStep, hcat2, he]
    rw [hstepE]
    rw [pemFold_acc "CERTIFICATE" rest false body]
  refine ⟨hmain, ?_⟩
  simp only [extractCertSection, hmain]

/-- C6 witness: the two-section PEM text with junk around both
sections. -/
theorem c6_witness :
    (splitLines c6pem = ["junk"] ++ "-----BEGIN CERTIFICATE-----" ::
      (["AAA"] ++ "-----END CERTIFICATE-----" ::
        ["-----BEGIN CERTIFICATE-----", "BBB", "-----END CERTIFICATE-----", "trailer"])) ∧
    (extractPEMSection c6pem "CERTIFICATE" = String.intercalate "\n"
      (["AAA"] ++ ((["-----BEGIN CERTIFICATE-----", "BBB", "-----END CERTIFICATE-----",
          "trailer"] : List String).foldl (pemStep "CERTIFICATE") (false, [])).2) ∧
    extractCertSection c6pem =
      (if (String.intercalate "\n"
          (["AAA"] ++ ((["-----BEGIN CERTIFICATE-----", "BBB", "-----END CERTIFICATE-----",
            "trailer"] : List String).foldl (pemStep "CERTIFICATE") (false, [])).2)).length = 0
       then .error .missingPEMSection
       else .ok (String.intercalate "\n"
          (["AAA"] ++ ((["-----BEGIN CERTIFICATE-----", "BBB", "-----END CERTIFICATE-----",
            "trailer"] : List String).foldl (pemStep "CERTIFICATE") (false, [])).2)))) :=
  ⟨by decide, c6_pem_extraction_amended c6pem ["junk"] ["AAA"]
    ["-----BEGIN CERTIFICATE-----", "BBB", "-----END CERTIFICATE-----", "trailer"]
    "-----BEGIN CERTIFICATE-----" "-----END CERTIFICATE-----"
    (by decide) (by decide) (by decide) (by decide) (by decide)⟩

/-- C7 (amended): provided the pre-assigned (nonzero) ids in the
depth-first id sequence are pairwise distinct, after the id-assignment
pass every node carries a unique positive id, nodes lacking an id receive
consecutive ids in depth-first traversal order starting one above the
maximum pre-assigned id, and pre-assigned ids are never changed (the id at
position i is the original when it was nonzero, and otherwise one plus the
maximum plus the number of unset positions before i). -/
theorem c7_id_assignment_amended
    (files : List XarFile)
    (hdist : (dfsIdsList files).Pairwise (fun a b => a ≠ 0 → b ≠ 0 → a ≠ b)) :
    (dfsIdsList (assignedFiles files)).length = (dfsIdsList files).length ∧
    (∀ (i : Nat) (hi : i < (dfsIdsList files).length),
      (dfsIdsList (assignedFiles files))[i]? = some
        (if (dfsIdsList files)[i] = 0
         then maxIDList files 0 + 1 + ((dfsIdsList files).take i).count 0
         else (dfsIdsList files)[i])) ∧
    (∀ x ∈ dfsIdsList (assignedFiles files), 0 < x) ∧
    (dfsIdsList (assignedFiles files)).Nodup := by
  have hbridge := (assignList_ids files (maxIDList files 0)).1
  have hids : dfsIdsList (assignedFiles files) =
      (fillFrom (maxIDList files 0) (dfsIdsList files)).1 := by
    simpa [assignedFiles] using hbridge
  have hmax : ∀ x ∈ dfsIdsList files, x ≤ maxIDList files 0 := (maxIDList_spec files 0).2
  have hlen : (fillFrom (maxIDList files 0) (dfsIdsList files)).1.length =
      (dfsIdsList files).length := fillFrom_length _ _
  refine ⟨by rw [hids, hlen], ?_, ?_, ?_⟩
  · intro i hi
    rw [hids]
    exact fillFrom_get _ _ i hi
  · intro x hx
    rw [hids] at hx
    obtain ⟨i, hilen, hval⟩ := List.mem_iff_getElem.mp hx
    have hi' : i < (dfsIdsList files).length := by rw [← hlen]; exact hilen
    have H := fillFrom_get (dfsIdsList files) (maxIDList files 0) i hi'
    rw [List.getElem?_eq_getElem hilen] at H
    have Hv := Option.some.inj H
    rw [hval] at Hv
    rw [Hv]
    by_cases h0 : (dfsIdsList files)[i] = 0
    · rw [if_pos h0]
      omega
    · rw [if_neg h0]
      omega
  · rw [hids]
    refine List.pairwise_iff_getElem.mpr ?_
    intro i j hi hj hij
    have hi' : i < (dfsIdsList files).length := by rw [← hlen]; exact hi
    have hj' : j < (dfsIdsList files).length := by rw [← hlen]; exact hj
    have Hi := fillFrom_get (dfsIdsList files) (maxIDList files 0) i hi'
    have Hj := fillFrom_get (dfsIdsList files) (maxIDList files 0) j hj'
    rw [List.getElem?_eq_getElem hi] at Hi
    rw [List.getElem?_eq_getElem hj] at Hj
    have Hi' := Option.some.inj Hi
    have Hj' := Option.some.inj Hj
    rw [Hi', Hj']
    have hmi : (dfsIdsList files)[i] ≤ maxIDList files 0 :=
      hmax _ (List.getElem_mem hi')
    have hmj : (dfsIdsList files)[j] ≤ maxIDList files 0 :=
      hmax _ (List.getElem_mem hj')
    by_cases h0i : (dfsIdsList files)[i] = 0 <;>
      by_cases h0j : (dfsIdsList files)[j] = 0
    · rw [if_pos h0i, if_pos h0j]
      have hc := count_take_lt (dfsIdsList files) i j hij hi' h0i
      omega
    · rw [if_pos h0i, if_neg h0j]
      omega
    · rw [if_neg h0i, if_pos h0j]
      omega
    · rw [if_neg h0i, if_neg h0j]
      exact List.pairwise_iff_getElem.mp hdist i j hi' hj' hij h0i h0j

/-- C7 witness: a forest mixing unset ids with the preset id five. -/
theorem c7_witness :
    ((dfsIdsList c7files).Pairwise (fun a b => a ≠ 0 → b ≠ 0 → a ≠ b)) ∧
    ((dfsIdsList (assignedFiles c7files)).length = (dfsIdsList c7files).length ∧
    (∀ (i : Nat) (hi : i < (dfsIdsList c7files).length),
      (dfsIdsList (assignedFiles c7files))[i]? = some
        (if (dfsIdsList c7files)[i] = 0
         then maxIDList c7files 0 + 1 + ((dfsIdsList c7files).take i).count 0
         else (dfsIdsList c7files)[i])) ∧
    (∀ x ∈ dfsIdsList (assignedFiles c7files), 0 < x) ∧
    (dfsIdsList (assignedFiles c7files)).Nodup) :=
  ⟨by decide, c7_id_assignment_amended c7files (by decide)⟩
